import Mathlib

set_option maxRecDepth 100000

/-!
Shallow embedding of the boss-timer application (src/main.py).

The embedding models, faithfully to the Python source:
  * `ButtonTimer` with `start`, `tick`, `is_active`, `get_time`;
  * `MainWindow.tick_all` (pre-alert check + tick over the roster, with the
    speech queue made explicit) as `tickAll` / `runAll`;
  * `MainWindow.update_labels` (soonest-expiring summary) as `update_labels`;
  * `MainWindow.on_boss_detected` as `on_boss_detected`;
  * `ScannerThread.run`'s per-sample template loop as `scanIteration`, and a
    multi-sample run as `scanRun`;
  * `SpeechEngine._worker` as `workerRun`, with `speak`/`stop` enqueue models.
-/

/-- `TIMER_DURATION = 19 * 60 + 55` from main.py (1195 seconds). -/
def TIMER_DURATION : Nat := 19 * 60 + 55

/-- State of one `ButtonTimer`: its display name, remaining seconds and the
`active` flag.  The Qt button, font and colors are external side effects and
carry no state read back by the logic. -/
structure ButtonTimer where
  name : String
  remaining : Nat
  active : Bool
deriving DecidableEq

namespace ButtonTimer

/-- `ButtonTimer.__init__`: `remaining = 0`, `active = False`. -/
def init (nm : String) : ButtonTimer := ⟨nm, 0, false⟩

/-- `ButtonTimer.start`: `remaining = TIMER_DURATION; active = True`. -/
def start (t : ButtonTimer) : ButtonTimer :=
  { t with remaining := TIMER_DURATION, active := true }

/-- `ButtonTimer.tick`: if active and remaining > 0, decrement; when the
decrement reaches 0, set `active = False`. -/
def tick (t : ButtonTimer) : ButtonTimer :=
  if t.active = true ∧ 0 < t.remaining then
    { t with remaining := t.remaining - 1,
             active := if t.remaining - 1 = 0 then false else t.active }
  else t

/-- `ButtonTimer.is_active`. -/
def is_active (t : ButtonTimer) : Bool := t.active

/-- Zero-padded two-digit rendering, as Python's `f"{n:02d}"`. -/
def pad2 (n : Nat) : String :=
  if n < 10 then "0" ++ toString n else toString n

/-- `ButtonTimer.get_time`: `divmod(remaining, 60)` rendered as `MM:SS`. -/
def get_time (t : ButtonTimer) : String :=
  pad2 (t.remaining / 60) ++ ":" ++ pad2 (t.remaining % 60)

end ButtonTimer

/-- Iterated `tick` (n applications). -/
def tickN : Nat → ButtonTimer → ButtonTimer
  | 0, t => t
  | n + 1, t => tickN n (ButtonTimer.tick t)

/-- States of one timer reachable from construction by any sequence of
`start()` and `tick()` calls. -/
inductive Reachable (nm : String) : ButtonTimer → Prop
  | init : Reachable nm (ButtonTimer.init nm)
  | start (t : ButtonTimer) : Reachable nm t → Reachable nm (ButtonTimer.start t)
  | tick (t : ButtonTimer) : Reachable nm t → Reachable nm (ButtonTimer.tick t)

/-- `MainWindow.tick_all` over the roster: for each timer in order, if it is
active with `remaining == 3` enqueue its name on the speech queue, then tick
it.  Returns the updated roster and queue. -/
def tickAll : List ButtonTimer → List String → List ButtonTimer × List String
  | [], q => ([], q)
  | t :: ts, q =>
      let q1 := if t.is_active = true ∧ t.remaining = 3 then q ++ [t.name] else q
      (ButtonTimer.tick t :: (tickAll ts q1).1, (tickAll ts q1).2)

/-- `n` invocations of the one-second `tick_all` callback. -/
def runAll : Nat → List ButtonTimer → List String → List ButtonTimer × List String
  | 0, ts, q => (ts, q)
  | n + 1, ts, q => runAll n (tickAll ts q).1 (tickAll ts q).2

-- Basic lemmas about the timer state machine.

theorem tick_inactive (t : ButtonTimer) (h : t.active = false) :
    ButtonTimer.tick t = t := by
  unfold ButtonTimer.tick
  rw [if_neg]
  intro hc
  rw [h] at hc
  exact Bool.false_ne_true hc.1

theorem tickN_countdown (r : Nat) (nm : String) :
    tickN (r + 1) ⟨nm, r + 1, true⟩ = ⟨nm, 0, false⟩ := by
  induction r with
  | zero => rfl
  | succ r ih =>
      show tickN (r + 1) (ButtonTimer.tick ⟨nm, r + 2, true⟩) = ⟨nm, 0, false⟩
      have ht : ButtonTimer.tick ⟨nm, r + 2, true⟩ = ⟨nm, r + 1, true⟩ := by
        unfold ButtonTimer.tick
        rw [if_pos ⟨rfl, Nat.succ_pos _⟩]
        simp
      rw [ht]
      exact ih

/-- C7: For every timer, calling `tick()` exactly `TIMER_DURATION` (1195)
times after `start()` yields `remaining == 0` and `is_active() == false`. -/
theorem C7_full_countdown (t : ButtonTimer) :
    (tickN TIMER_DURATION (ButtonTimer.start t)).remaining = 0 ∧
    (tickN TIMER_DURATION (ButtonTimer.start t)).is_active = false := by
  have hs : ButtonTimer.start t = ⟨t.name, 1194 + 1, true⟩ := rfl
  have hd : TIMER_DURATION = 1194 + 1 := rfl
  rw [hs, hd, tickN_countdown]
  exact ⟨rfl, rfl⟩

/-- C5: In every reachable state of a boss timer, `remaining > 0` holds
exactly when the timer is Running (`active = true`); in particular a timer
with `remaining == 0` is already treated as inactive (the expiry transition
deactivates it within the expiring tick itself), and an inactive timer is a
fixed point of `tick`, so it stays inactive until the next `start`. -/
theorem C5_running_invariant (nm : String) (t : ButtonTimer)
    (h : Reachable nm t) :
    (0 < t.remaining ↔ t.active = true) ∧
    (t.active = false → ButtonTimer.tick t = t) := by
  refine ⟨?_, tick_inactive t⟩
  induction h with
  | init => simp [ButtonTimer.init]
  | start t' _ _ =>
      simp [ButtonTimer.start, TIMER_DURATION]
  | tick t' _ ih =>
      unfold ButtonTimer.tick
      by_cases hc : t'.active = true ∧ 0 < t'.remaining
      · rw [if_pos hc]
        simp only
        by_cases hz : t'.remaining - 1 = 0
        · rw [if_pos hz]
          constructor
          · intro hlt; omega
          · intro hff; exact absurd hff (by decide)
        · rw [if_neg hz]
          constructor
          · intro _; exact hc.1
          · intro _; omega
      · rw [if_neg hc]
        exact ih

/-- Witness for C5 at the concrete initial state of timer "A". -/
theorem C5_witness :
    (0 < (ButtonTimer.init "A").remaining ↔ (ButtonTimer.init "A").active = true) ∧
    ((ButtonTimer.init "A").active = false →
      ButtonTimer.tick (ButtonTimer.init "A") = ButtonTimer.init "A") :=
  C5_running_invariant "A" (ButtonTimer.init "A") Reachable.init

-- Lemmas about `tickAll` / `runAll` runs.

theorem tickAll_one (t : ButtonTimer) (q : List String) :
    tickAll [t] q = ([ButtonTimer.tick t],
      if t.is_active = true ∧ t.remaining = 3 then q ++ [t.name] else q) := rfl

theorem tickAll_one_mk (nm : String) (r : Nat) (a : Bool) (q : List String) :
    tickAll [⟨nm, r, a⟩] q = ([ButtonTimer.tick ⟨nm, r, a⟩],
      if a = true ∧ r = 3 then q ++ [nm] else q) := rfl

theorem tick_running (nm : String) (r : Nat) (h0 : 0 < r) :
    ButtonTimer.tick ⟨nm, r, true⟩ =
      ⟨nm, r - 1, if r - 1 = 0 then false else true⟩ := by
  unfold ButtonTimer.tick
  rw [if_pos ⟨rfl, h0⟩]

theorem tickAll_inactive (ts : List ButtonTimer) (q : List String)
    (h : ∀ b ∈ ts, b.active = false) : tickAll ts q = (ts, q) := by
  induction ts with
  | nil => rfl
  | cons b ts ih =>
      have hb : b.active = false := h b (List.mem_cons_self b ts)
      have hts : ∀ b ∈ ts, b.active = false :=
        fun x hx => h x (List.mem_cons_of_mem b hx)
      simp only [tickAll, ButtonTimer.is_active]
      rw [if_neg (by rw [hb]; intro hc; exact Bool.false_ne_true hc.1)]
      rw [ih hts, tick_inactive b hb]

theorem runAll_idle_tail (k : Nat) (t : ButtonTimer) (ts : List ButtonTimer)
    (q : List String) (h : ∀ b ∈ ts, b.active = false) :
    runAll k (t :: ts) q = ((runAll k [t] q).1 ++ ts, (runAll k [t] q).2) := by
  induction k generalizing t q with
  | zero => rfl
  | succ k ih =>
      show runAll k (tickAll (t :: ts) q).1 (tickAll (t :: ts) q).2 = _
      have hstep : tickAll (t :: ts) q =
          (ButtonTimer.tick t :: ts,
           if t.is_active = true ∧ t.remaining = 3 then q ++ [t.name] else q) := by
        simp only [tickAll]
        rw [tickAll_inactive ts _ h]
      rw [hstep]
      rw [ih (ButtonTimer.tick t) _]
      have hstep1 : tickAll [t] q =
          ([ButtonTimer.tick t],
           if t.is_active = true ∧ t.remaining = 3 then q ++ [t.name] else q) :=
        tickAll_one t q
      show _ = ((runAll (k + 1) [t] q).1 ++ ts, (runAll (k + 1) [t] q).2)
      show _ = ((runAll k (tickAll [t] q).1 (tickAll [t] q).2).1 ++ ts,
                (runAll k (tickAll [t] q).1 (tickAll [t] q).2).2)
      rw [hstep1]

theorem runAll_add (a b : Nat) (ts : List ButtonTimer) (q : List String) :
    runAll (a + b) ts q = runAll b (runAll a ts q).1 (runAll a ts q).2 := by
  induction a generalizing ts q with
  | zero =>
      rw [Nat.zero_add]
      rfl
  | succ a ih =>
      have h : a + 1 + b = (a + b) + 1 := by omega
      rw [h]
      show runAll (a + b) (tickAll ts q).1 (tickAll ts q).2 = _
      rw [ih]
      rfl

theorem runAll_noalert (k : Nat) (nm : String) (r : Nat) (q : List String)
    (h : k + 3 ≤ r) :
    runAll k [⟨nm, r, true⟩] q = ([⟨nm, r - k, true⟩], q) := by
  induction k generalizing r q with
  | zero => rfl
  | succ k ih =>
      show runAll k (tickAll [⟨nm, r, true⟩] q).1 (tickAll [⟨nm, r, true⟩] q).2 = _
      have hstep : tickAll [⟨nm, r, true⟩] q = ([⟨nm, r - 1, true⟩], q) := by
        rw [tickAll_one_mk, tick_running nm r (by omega)]
        rw [if_neg (show ¬(r - 1 = 0) by omega)]
        rw [if_neg (show ¬(true = true ∧ r = 3) from fun hc => by omega)]
      rw [hstep, ih (r - 1) q (by omega)]
      have hsub : r - 1 - k = r - (k + 1) := by omega
      rw [hsub]

theorem tickAll_at_3 (nm : String) (q : List String) :
    tickAll [⟨nm, 3, true⟩] q = ([⟨nm, 2, true⟩], q ++ [nm]) := rfl

theorem tickAll_at_2 (nm : String) (q : List String) :
    tickAll [⟨nm, 2, true⟩] q = ([⟨nm, 1, true⟩], q) := rfl

theorem tickAll_at_1 (nm : String) (q : List String) :
    tickAll [⟨nm, 1, true⟩] q = ([⟨nm, 0, false⟩], q) := rfl

theorem runAll_1193 (nm : String) (q : List String) :
    runAll 1193 [⟨nm, 1195, true⟩] q = ([⟨nm, 2, true⟩], q ++ [nm]) := by
  have h : (1193 : Nat) = 1192 + 1 := by omega
  rw [h, runAll_add 1192 1 _ q]
  rw [runAll_noalert 1192 nm 1195 q (by omega)]
  show runAll 0 (tickAll [⟨nm, 1195 - 1192, true⟩] q).1
        (tickAll [⟨nm, 1195 - 1192, true⟩] q).2 = _
  have h3 : (1195 : Nat) - 1192 = 3 := by omega
  rw [h3, tickAll_at_3]
  rfl

/-- C8: `start()` is never rejected: from any timer state — including
mid-countdown while Running — it unconditionally resets `remaining` to
`TIMER_DURATION` and makes the timer Running, and in the new run the
pre-alert notification is enqueued again (after 1193 ticks of the restarted
timer the speech queue has gained exactly the timer's name). -/
theorem C8_start_unconditional (t : ButtonTimer) (q : List String) :
    ButtonTimer.start t = ⟨t.name, TIMER_DURATION, true⟩ ∧
    (runAll 1193 [ButtonTimer.start t] q).2 = q ++ [t.name] := by
  constructor
  · rfl
  · have hs : ButtonTimer.start t = ⟨t.name, 1195, true⟩ := rfl
    rw [hs, runAll_1193]

/-- C1 (amended): with a timer started at t=0 and `tick_all` run once per
second, the pre-alert is enqueued exactly once during the `TIMER_DURATION`
(1195) tick run, namely at tick t=1193 — the tick whose pre-check reads
`remaining == 3` (set by tick 1192) before decrementing it to 2 — not at
t=1192: for every k ≤ 1195 the speech queue after k ticks is unchanged for
k ≤ 1192 and has gained exactly one entry (the boss name) for k ≥ 1193. -/
theorem C1_pre_alert_once (nm : String) (q : List String) (k : Nat)
    (hk : k ≤ 1195) :
    (runAll k [ButtonTimer.start (ButtonTimer.init nm)] q).2 =
      if k ≤ 1192 then q else q ++ [nm] := by
  have hs : ButtonTimer.start (ButtonTimer.init nm) = ⟨nm, 1195, true⟩ := rfl
  rw [hs]
  by_cases h12 : k ≤ 1192
  · rw [if_pos h12, runAll_noalert k nm 1195 q (by omega)]
  · rw [if_neg h12]
    have hj : k = 1193 + (k - 1193) := by omega
    rw [hj, runAll_add 1193 (k - 1193) _ q, runAll_1193]
    have hcases : k - 1193 = 0 ∨ k - 1193 = 1 ∨ k - 1193 = 2 := by omega
    rcases hcases with h | h | h <;> rw [h]
    · rfl
    · show (runAll 0 (tickAll [⟨nm, 2, true⟩] (q ++ [nm])).1
            (tickAll [⟨nm, 2, true⟩] (q ++ [nm])).2).2 = q ++ [nm]
      rw [tickAll_at_2]
      rfl
    · show (runAll 1 (tickAll [⟨nm, 2, true⟩] (q ++ [nm])).1
            (tickAll [⟨nm, 2, true⟩] (q ++ [nm])).2).2 = q ++ [nm]
      rw [tickAll_at_2]
      show (runAll 0 (tickAll [⟨nm, 1, true⟩] (q ++ [nm])).1
            (tickAll [⟨nm, 1, true⟩] (q ++ [nm])).2).2 = q ++ [nm]
      rw [tickAll_at_1]
      rfl

/-- Witness for C1 (amended): at k = 1193 on boss "A" the queue holds exactly
one enqueued name. -/
theorem C1_pre_alert_once_witness :
    (runAll 1193 [ButtonTimer.start (ButtonTimer.init "A")] []).2 =
      if 1193 ≤ 1192 then ([] : List String) else [] ++ ["A"] :=
  C1_pre_alert_once "A" [] 1193 (by omega)

/-- C1 counterexample: in the spec's concrete scenario (roster {"A","B"},
"A" triggered at t=0, "B" never triggered) nothing has been enqueued after
1192 ticks — the notification is NOT enqueued at the tick where `remaining`
transitions to 3 (t=1192); it is enqueued one tick later, at t=1193. -/
theorem C1_counterexample :
    (runAll 1192 [ButtonTimer.start (ButtonTimer.init "A"),
      ButtonTimer.init "B"] []).2 = [] ∧
    (runAll 1193 [ButtonTimer.start (ButtonTimer.init "A"),
      ButtonTimer.init "B"] []).2 = ["A"] := by
  have hidle : ∀ b ∈ [ButtonTimer.init "B"], b.active = false := by
    intro b hb
    rw [List.mem_singleton] at hb
    rw [hb]
    rfl
  have hs : ButtonTimer.start (ButtonTimer.init "A") = ⟨"A", 1195, true⟩ := rfl
  rw [hs]
  constructor
  · rw [runAll_idle_tail 1192 _ _ _ hidle]
    rw [runAll_noalert 1192 "A" 1195 [] (by omega)]
  · rw [runAll_idle_tail 1193 _ _ _ hidle]
    rw [runAll_1193]
    rfl

-- `MainWindow.update_labels`: the soonest-expiring summary.

/-- Python's `min(active_timers, key=lambda t: t.remaining)`: scan left to
right, replacing the current best only on a strictly smaller key, so the
first minimal element wins. -/
def pyMin (t : ButtonTimer) (ts : List ButtonTimer) : ButtonTimer :=
  ts.foldl (fun best u => if u.remaining < best.remaining then u else best) t

/-- `MainWindow.update_labels`: filter the Running timers; if any, report the
name and formatted time of the minimum-remaining one (first wins on ties);
otherwise report empty strings. -/
def update_labels (ts : List ButtonTimer) : String × String :=
  match ts.filter (fun t => t.is_active) with
  | [] => ("", "")
  | t :: rest => ((pyMin t rest).name, ButtonTimer.get_time (pyMin t rest))

theorem pyMin_le (ts : List ButtonTimer) (t : ButtonTimer) :
    (pyMin t ts).remaining ≤ t.remaining := by
  induction ts generalizing t with
  | nil => exact Nat.le_refl _
  | cons u ts ih =>
      show (pyMin (if u.remaining < t.remaining then u else t) ts).remaining ≤ _
      by_cases hu : u.remaining < t.remaining
      · rw [if_pos hu]
        exact Nat.le_trans (ih u) (Nat.le_of_lt hu)
      · rw [if_neg hu]
        exact ih t

theorem pyMin_first_min (ts : List ButtonTimer) (t : ButtonTimer) :
    ∃ l₁ l₂, t :: ts = l₁ ++ pyMin t ts :: l₂ ∧
      (∀ u ∈ l₁, (pyMin t ts).remaining < u.remaining) ∧
      (∀ u ∈ l₂, (pyMin t ts).remaining ≤ u.remaining) := by
  induction ts generalizing t with
  | nil => exact ⟨[], [], rfl, by simp, by simp⟩
  | cons u ts ih =>
      have hfold : pyMin t (u :: ts) =
          pyMin (if u.remaining < t.remaining then u else t) ts := rfl
      by_cases hu : u.remaining < t.remaining
      · have hp : pyMin t (u :: ts) = pyMin u ts := by rw [hfold, if_pos hu]
        obtain ⟨l₁, l₂, heq, h₁, h₂⟩ := ih u
        refine ⟨t :: l₁, l₂, ?_, ?_, ?_⟩
        · rw [hp, List.cons_append, ← heq]
        · intro v hv
          rw [hp]
          rcases List.mem_cons.mp hv with h | h
          · subst h
            exact Nat.lt_of_le_of_lt (pyMin_le ts u) hu
          · exact h₁ v h
        · intro v hv
          rw [hp]
          exact h₂ v hv
      · have hp : pyMin t (u :: ts) = pyMin t ts := by rw [hfold, if_neg hu]
        have hle : t.remaining ≤ u.remaining := Nat.le_of_not_lt hu
        obtain ⟨l₁, l₂, heq, h₁, h₂⟩ := ih t
        cases l₁ with
        | nil =>
            rw [List.nil_append] at heq
            injection heq with hm hts2
            refine ⟨[], u :: ts, ?_, by simp, ?_⟩
            · rw [hp, List.nil_append, ← hm]
            · intro v hv
              rw [hp, ← hm]
              rcases List.mem_cons.mp hv with h | h
              · subst h
                exact hle
              · have hv₂ : v ∈ l₂ := hts2 ▸ h
                have := h₂ v hv₂
                rw [← hm] at this
                exact this
        | cons t₁ l₁ =>
            rw [List.cons_append] at heq
            injection heq with h1 h2
            refine ⟨t :: u :: l₁, l₂, ?_, ?_, ?_⟩
            · rw [hp, List.cons_append, List.cons_append, ← h2]
            · intro v hv
              rw [hp]
              have hmt : (pyMin t ts).remaining < t.remaining := by
                have := h₁ t₁ (List.mem_cons_self t₁ l₁)
                rw [← h1] at this
                exact this
              rcases List.mem_cons.mp hv with h | h
              · subst h
                exact hmt
              · rcases List.mem_cons.mp h with h' | h'
                · subst h'
                  exact Nat.lt_of_lt_of_le hmt hle
                · exact h₁ v (List.mem_cons_of_mem t₁ h')
            · intro v hv
              rw [hp]
              exact h₂ v hv

/-- C6: whenever at least one timer is Running, `update_labels` reports the
name and formatted remaining time of a Running timer `m` of minimal
remaining seconds, and every Running timer declared before `m` in roster
order has strictly greater remaining (ties broken by roster order, first
wins); whenever no timer is Running, the summary is a pair of empty
strings. -/
theorem C6_soonest_summary (ts : List ButtonTimer) :
    (ts.filter (fun t => t.is_active) = [] → update_labels ts = ("", "")) ∧
    (∀ a as, ts.filter (fun t => t.is_active) = a :: as →
      ∃ m l₁ l₂, update_labels ts = (m.name, ButtonTimer.get_time m) ∧
        m.is_active = true ∧
        ts.filter (fun t => t.is_active) = l₁ ++ m :: l₂ ∧
        (∀ u ∈ l₁, m.remaining < u.remaining) ∧
        (∀ u ∈ l₂, m.remaining ≤ u.remaining)) := by
  constructor
  · intro h
    unfold update_labels
    rw [h]
  · intro a as h
    obtain ⟨l₁, l₂, heq, h₁, h₂⟩ := pyMin_first_min as a
    refine ⟨pyMin a as, l₁, l₂, ?_, ?_, ?_, h₁, h₂⟩
    · unfold update_labels
      rw [h]
    · have hmem : pyMin a as ∈ ts.filter (fun t => t.is_active) := by
        rw [h, heq]
        exact List.mem_append_right l₁ (List.mem_cons_self _ l₂)
      exact (List.mem_filter.mp hmem).2
    · rw [h, heq]

/-- Witness for C6 on a concrete roster with a tie: the summary names the
first-declared of the two Running timers with minimal remaining. -/
theorem C6_witness :
    ∃ m l₁ l₂,
      update_labels [⟨"A", 5, true⟩, ⟨"B", 2, false⟩, ⟨"C", 5, true⟩] =
        (m.name, ButtonTimer.get_time m) ∧
      m.is_active = true ∧
      ([⟨"A", 5, true⟩, ⟨"B", 2, false⟩, ⟨"C", 5, true⟩] :
        List ButtonTimer).filter (fun t => t.is_active) = l₁ ++ m :: l₂ ∧
      (∀ u ∈ l₁, m.remaining < u.remaining) ∧
      (∀ u ∈ l₂, m.remaining ≤ u.remaining) :=
  (C6_soonest_summary _).2 ⟨"A", 5, true⟩ [⟨"C", 5, true⟩] (by decide)

-- `MainWindow.on_boss_detected`: look up the timer by boss name.

/-- `MainWindow.on_boss_detected`: scan the roster for the first timer whose
name equals the detected boss name; if found, `start()` it and set the
"current boss" label (the `Option String` component); otherwise fall
through, leaving every timer untouched and the label unset. -/
def on_boss_detected : List ButtonTimer → String → List ButtonTimer × Option String
  | [], _ => ([], none)
  | t :: ts, n =>
      if t.name = n then (ButtonTimer.start t :: ts, some n)
      else (t :: (on_boss_detected ts n).1, (on_boss_detected ts n).2)

theorem on_boss_detected_miss (ts : List ButtonTimer) (n : String)
    (h : ∀ t ∈ ts, t.name ≠ n) : on_boss_detected ts n = (ts, none) := by
  induction ts with
  | nil => rfl
  | cons t ts ih =>
      have ht : t.name ≠ n := h t (List.mem_cons_self t ts)
      simp only [on_boss_detected]
      rw [if_neg ht, ih (fun u hu => h u (List.mem_cons_of_mem t hu))]

theorem on_boss_detected_hit (l₁ : List ButtonTimer) (t : ButtonTimer)
    (l₂ : List ButtonTimer) (n : String) (ht : t.name = n)
    (h : ∀ u ∈ l₁, u.name ≠ n) :
    on_boss_detected (l₁ ++ t :: l₂) n =
      (l₁ ++ ButtonTimer.start t :: l₂, some n) := by
  induction l₁ with
  | nil =>
      rw [List.nil_append, List.nil_append]
      simp only [on_boss_detected]
      rw [if_pos ht]
  | cons u l₁ ih =>
      have hu : u.name ≠ n := h u (List.mem_cons_self u l₁)
      rw [List.cons_append, List.cons_append]
      simp only [on_boss_detected]
      rw [if_neg hu, ih (fun v hv => h v (List.mem_cons_of_mem u hv))]

/-- C3 (amended): starting a boss countdown by name scans the roster for the
first timer with that name and calls its `start()`; for a name absent from
the roster the handler is a silent no-op — every timer is left unchanged and
no label update or error of any kind is produced (no `UnknownBoss` failure
exists in the code). -/
theorem C3_trigger_semantics (ts : List ButtonTimer) (n : String) :
    ((∀ t ∈ ts, t.name ≠ n) → on_boss_detected ts n = (ts, none)) ∧
    (∀ l₁ t l₂, ts = l₁ ++ t :: l₂ → t.name = n → (∀ u ∈ l₁, u.name ≠ n) →
      on_boss_detected ts n = (l₁ ++ ButtonTimer.start t :: l₂, some n)) := by
  constructor
  · exact on_boss_detected_miss ts n
  · intro l₁ t l₂ hts ht h
    rw [hts]
    exact on_boss_detected_hit l₁ t l₂ n ht h

/-- Witness for C3 (amended): a known name starts its timer and sets the
label. -/
theorem C3_trigger_witness :
    on_boss_detected [ButtonTimer.init "A", ButtonTimer.init "B"] "B" =
      ([ButtonTimer.init "A"] ++
        ButtonTimer.start (ButtonTimer.init "B") :: [], some "B") :=
  (C3_trigger_semantics [ButtonTimer.init "A", ButtonTimer.init "B"] "B").2
    [ButtonTimer.init "A"] (ButtonTimer.init "B") [] rfl rfl (by decide)

/-- C3 counterexample: triggering the unknown name "Z" on the roster
{"A","B"} is a silent no-op — the handler returns every timer unchanged and
produces no label update and no error value, contradicting the claim that an
`UnknownBoss` failure is surfaced to the caller. -/
theorem C3_counterexample :
    on_boss_detected [ButtonTimer.init "A", ButtonTimer.init "B"] "Z" =
      ([ButtonTimer.init "A", ButtonTimer.init "B"], none) := by decide

-- `ScannerThread.run`: one sampling iteration over the templates.

/-- One iteration of the template loop in `ScannerThread.run`.  Each entry of
`tmpl` is a template key paired with the Boolean outcome of the comparison
`max_val >= 0.9` for this frame (the score itself lives in the external
scorer).  The loop takes the first template that qualifies AND differs from
`last` (the `last_detected_boss` field), emits the mapped boss name
(`template_to_boss_name.get(key, key)`, modelled by `toName`), records the
key, and breaks; the for-else sets `last_detected_boss = None` when the loop
finishes without a break.  Returns (emitted event, new `last`). -/
def scanIteration : List (String × Bool) → (String → String) → Option String →
    Option String × Option String
  | [], _, _ => (none, none)
  | p :: rest, toName, last =>
      if p.2 = true ∧ last ≠ some p.1 then (some (toName p.1), some p.1)
      else scanIteration rest toName last

/-- A run of consecutive sampling iterations: returns the emitted events in
order together with the final `last_detected_boss`. -/
def scanRun (toName : String → String) :
    List (List (String × Bool)) → Option String → List String × Option String
  | [], last => ([], last)
  | frame :: frames, last =>
      ((scanIteration frame toName last).1.toList ++
        (scanRun toName frames (scanIteration frame toName last).2).1,
       (scanRun toName frames (scanIteration frame toName last).2).2)

theorem scanIteration_eq_find (tmpl : List (String × Bool))
    (toName : String → String) (last : Option String) :
    scanIteration tmpl toName last =
      match tmpl.find? (fun p => p.2 && decide (last ≠ some p.1)) with
      | some p => (some (toName p.1), some p.1)
      | none => (none, none) := by
  induction tmpl with
  | nil => rfl
  | cons p rest ih =>
      by_cases hc : p.2 = true ∧ last ≠ some p.1
      · rw [List.find?_cons_of_pos]
        · simp only [scanIteration]
          rw [if_pos hc]
        · simp only [Bool.and_eq_true, decide_eq_true_eq]
          exact hc
      · rw [List.find?_cons_of_neg]
        · simp only [scanIteration]
          rw [if_neg hc]
          exact ih
        · simp only [Bool.and_eq_true, decide_eq_true_eq]
          exact hc

/-- C2 (amended): in every sampling iteration the template loop selects the
FIRST template that both qualifies (score comparison true) and whose key
differs from `last_detected_boss`; it emits the mapped boss name and sets
`last_detected_boss` to that key.  When no such template exists — including
when the only qualifying templates carry exactly the last matched key — no
event is emitted and `last_detected_boss` is RESET to none (the for-else),
rather than kept.  Consequently an unbroken run of three qualifying samples
of one key emits two events (1st and 3rd samples), not exactly one, while a
non-qualifying sample between two qualifying ones still yields a second
event on re-appearance. -/
theorem C2_dedup_semantics (tmpl : List (String × Bool))
    (toName : String → String) (last : Option String) (k : String) :
    (scanIteration tmpl toName last =
      match tmpl.find? (fun p => p.2 && decide (last ≠ some p.1)) with
      | some p => (some (toName p.1), some p.1)
      | none => (none, none)) ∧
    (scanRun toName [[(k, true)], [(k, true)], [(k, true)]] none =
      ([toName k, toName k], some k)) ∧
    (scanRun toName [[(k, true)], [(k, false)], [(k, true)]] none =
      ([toName k, toName k], some k)) := by
  refine ⟨scanIteration_eq_find tmpl toName last, ?_, ?_⟩
  · have h1 : scanIteration [(k, true)] toName none =
        (some (toName k), some k) := by
      simp [scanIteration]
    have h2 : scanIteration [(k, true)] toName (some k) = (none, none) := by
      simp [scanIteration]
    simp [scanRun, h1, h2]
  · have h1 : scanIteration [(k, true)] toName none =
        (some (toName k), some k) := by
      simp [scanIteration]
    have h2 : scanIteration [(k, false)] toName (some k) = (none, none) := by
      simp [scanIteration]
    simp [scanRun, h1, h2]

/-- C2 counterexample: three consecutive samples all qualifying for the same
template key "tpl" emit TWO events, not exactly one, and the suppressed
middle sample does not keep `last_detected_boss` — it resets it to none. -/
theorem C2_counterexample :
    (scanRun (fun s => s) [[("tpl", true)], [("tpl", true)], [("tpl", true)]]
      none).1 = ["tpl", "tpl"] ∧
    scanIteration [("tpl", true)] (fun s => s) (some "tpl") = (none, none) := by
  constructor
  · rfl
  · rfl

-- `SpeechEngine`: queue worker.

/-- How a `SpeechEngine._worker` thread run ends, given the eventual queue
contents: `blocked` when the modelled queue contents are exhausted without a
sentinel (`queue.get()` would block for more input), `terminated` when the
`None` sentinel was consumed (the `break`), `crashed t` when delivery of
payload `t` raised and the uncaught exception ended the thread. -/
inductive WorkerOutcome
  | blocked
  | terminated
  | crashed (t : String)
deriving DecidableEq

/-- `SpeechEngine._worker` over the queue contents, parameterised by the
external delivery mechanism: `deliver t = true` models
`engine.say(t); engine.runAndWait()` completing, `deliver t = false` models
it raising.  Returns the payloads fully delivered, in order, and the way the
worker run ended.  There is no exception handler in `_worker`, so a raising
delivery ends the run at once. -/
def workerRun (deliver : String → Bool) :
    List (Option String) → List String × WorkerOutcome
  | [] => ([], WorkerOutcome.blocked)
  | none :: _ => ([], WorkerOutcome.terminated)
  | some t :: rest =>
      if deliver t = true then
        (t :: (workerRun deliver rest).1, (workerRun deliver rest).2)
      else ([], WorkerOutcome.crashed t)

namespace SpeechEngine

/-- `SpeechEngine.speak`: `queue.put(text)` — a plain unconditional append,
total in every engine state. -/
def speak (q : List (Option String)) (text : String) : List (Option String) :=
  q ++ [some text]

/-- `SpeechEngine.stop`: `queue.put(None)` — enqueue the sentinel. -/
def stop (q : List (Option String)) : List (Option String) :=
  q ++ [none]

end SpeechEngine

theorem workerRun_past_sentinel (deliver : String → Bool)
    (q post : List (Option String)) :
    workerRun deliver (q ++ none :: post) = workerRun deliver (q ++ [none]) := by
  induction q with
  | nil => rfl
  | cons x q ih =>
      cases x with
      | none => rfl
      | some s =>
          rw [List.cons_append, List.cons_append]
          simp only [workerRun]
          rw [ih]

/-- C4 (amended): a failing delivery is not caught: if every payload before
`t` delivers successfully and delivery of `t` raises, the worker run ends at
`t` with the thread crashed, and no payload queued after the failing one is
ever delivered. -/
theorem C4_failure_kills_worker (deliver : String → Bool) (pre : List String)
    (t : String) (rest : List (Option String))
    (hpre : ∀ s ∈ pre, deliver s = true) (ht : deliver t = false) :
    workerRun deliver (pre.map some ++ some t :: rest) =
      (pre, WorkerOutcome.crashed t) := by
  induction pre with
  | nil =>
      rw [List.map_nil, List.nil_append]
      simp only [workerRun]
      rw [if_neg (by rw [ht]; exact Bool.false_ne_true)]
  | cons s pre ih =>
      have hs : deliver s = true := hpre s (List.mem_cons_self s pre)
      rw [List.map_cons, List.cons_append]
      simp only [workerRun]
      rw [if_pos hs, ih (fun u hu => hpre u (List.mem_cons_of_mem s hu))]

/-- Witness for C4 (amended): queue ["a", "b", "c", sentinel] where only "b"
fails: "a" is delivered, the worker crashes on "b", and "c" is dropped. -/
theorem C4_failure_witness :
    (∀ s ∈ ["a"], (fun s => !(s == "b")) s = true) ∧
    ((fun s => !(s == "b")) "b" = false) ∧
    workerRun (fun s => !(s == "b"))
      (List.map some ["a"] ++ some "b" :: [some "c", none]) =
      (["a"], WorkerOutcome.crashed "b") :=
  ⟨by decide, by decide,
    C4_failure_kills_worker (fun s => !(s == "b")) ["a"] "b" [some "c", none]
      (by decide) (by decide)⟩

/-- C4 counterexample: with delivery of "a" raising, the payload "b" queued
after the failing one is never delivered and the worker does not proceed —
it crashes, contradicting the claim that a delivery failure never terminates
the worker and that every later payload is still delivered. -/
theorem C4_counterexample :
    workerRun (fun s => !(s == "a")) [some "a", some "b", none] =
      ([], WorkerOutcome.crashed "a") := by decide

/-- C9: with every delivery completing, the worker consumes the queued
payloads one at a time in exactly FIFO enqueue order (the delivered list IS
the enqueued list) and, once `stop()`'s sentinel is reached, terminates only
after having delivered every payload enqueued before the sentinel; items
after the sentinel are not consumed. -/
theorem C9_fifo_drain (deliver : String → Bool) (items : List String)
    (rest : List (Option String)) (h : ∀ s ∈ items, deliver s = true) :
    workerRun deliver (items.map some ++ none :: rest) =
      (items, WorkerOutcome.terminated) := by
  induction items with
  | nil => rfl
  | cons s items ih =>
      have hs : deliver s = true := h s (List.mem_cons_self s items)
      rw [List.map_cons, List.cons_append]
      simp only [workerRun]
      rw [if_pos hs, ih (fun u hu => h u (List.mem_cons_of_mem s hu))]

/-- Witness for C9: two payloads then the sentinel are delivered in order
and the worker terminates. -/
theorem C9_fifo_drain_witness :
    (∀ s ∈ ["x", "y"], (fun _ => true) s = true) ∧
    workerRun (fun _ => true) (List.map some ["x", "y"] ++ none :: []) =
      (["x", "y"], WorkerOutcome.terminated) :=
  ⟨by decide, C9_fifo_drain (fun _ => true) ["x", "y"] [] (by decide)⟩

/-- C10: `speak(text)` after `stop()` is total (it appends `some text` after
the sentinel) and the late payload is never delivered: the worker run on the
queue with the late payload is identical to the run without it, because the
worker stops at the earlier sentinel (or at an earlier failure) in FIFO
order. -/
theorem C10_speak_after_stop (deliver : String → Bool)
    (q : List (Option String)) (t : String) :
    SpeechEngine.speak (SpeechEngine.stop q) t = q ++ [none] ++ [some t] ∧
    workerRun deliver (SpeechEngine.speak (SpeechEngine.stop q) t) =
      workerRun deliver (SpeechEngine.stop q) := by
  constructor
  · rfl
  · show workerRun deliver ((q ++ [none]) ++ [some t]) =
      workerRun deliver (q ++ [none])
    rw [List.append_assoc]
    show workerRun deliver (q ++ none :: [some t]) =
      workerRun deliver (q ++ [none])
    exact workerRun_past_sentinel deliver q [some t]
